import Mathlib

/-!
# Verification of the exchange-rates cache engine

Shallow embedding of `src/ExchangeRatesAPI.py` (the variant the claims cite).

Modelling conventions:
* Calendar dates are natural-number day indices; day `0` is a Monday, so the
  Python `date.isoweekday()` (Monday = 1 .. Sunday = 7) becomes `d % 7 + 1`.
* Python floats are modelled as rationals.
* A provider response (`rsp` dict) carries the echoed `base`, the ordered key
  list of its `rates` mapping, and the rate lookup itself.
* The sqlite table is a list of rows in insertion order; the `date` column is
  the primary key, so an `INSERT` for an existing date raises
  `sqlite3.IntegrityError`, which the code swallows (`insert_into_table`).
* `list(set(a).difference(set(b)))` iterates a Python set, whose element order
  is unspecified; we model the difference as an order-preserving filter over
  `a`, which is one admissible order.  None of the refuting theorems below
  depend on a favourable choice of this order.
* `print`, `tqdm`, and `conn.commit()` are effect-free for the cache state and
  are elided.
-/

/-- Currency code literal reused by concrete stores and providers. -/
def USD : String := "USD"

/-- Currency code literal reused by concrete stores and providers. -/
def CAD : String := "CAD"

/-- Currency code literal reused by concrete stores and providers. -/
def EUR : String := "EUR"

/-- A currency code that no provider response below knows. -/
def XYZ : String := "XYZ"

/-- `TABLE_NAME = 'exchange_rates'`. -/
def TABLE_NAME : String := "exchange_rates"

/-- `days = list(calendar.day_name)`. -/
def days : List String := ["Monday", "Tuesday", "Wednesday", "Thursday", "Friday", "Saturday", "Sunday"]

/-- `datetime.date.isoweekday()`: Monday = 1 .. Sunday = 7 (day 0 is a Monday). -/
def isoweekday (d : Nat) : Nat := d % 7 + 1

/-- `isoweekdays = dict(zip(range(1, len(days)+1), days))`, as a lookup. -/
def isoweekdays (n : Nat) : String := days.getD (n - 1) ""

/-- The weekend test of the populate loop:
`isoweekdays[dt.isoweekday()] in ['Saturday', 'Sunday']`. -/
def isWeekendDay (d : Nat) : Bool := ["Saturday", "Sunday"].contains (isoweekdays (isoweekday d))

/-- One decoded provider response (`rsp` dict): the echoed base currency, the
ordered key list of the `rates` mapping and the rates themselves. -/
structure Rsp where
  base : String
  ratesKeys : List String
  rates : String → Rat

/-- A provider: `get_api_response` keyed by the base sent in the URL
(`args.base`, line 75) and the requested date. -/
abbrev Api := String → Nat → Rsp

/-- One persisted `CachedRateRow`: the `date` primary key, the `base` column
and one value per entry of `rate_keys` (in `rate_keys` order). -/
structure Row where
  date : Nat
  base : String
  vals : List Rat
deriving DecidableEq, Repr

/-- `get_insert_statement_and_values` (lines 79-93): the INSERT statement text
and the value tuple `(date, rsp['base'], *[1.0 if x == base_rate else
rsp['rates'][x] for x in rate_keys])`, the latter as a `Row`. -/
def get_insert_statement_and_values (rsp : Rsp) (date : Nat) (table_name : String)
    (rate_keys : List String) (base_rate : String) : String × Row :=
  ("INSERT INTO " ++ table_name ++ " VALUES (?,?," ++
      String.join (List.replicate (rate_keys.length - 1) ("?,")) ++ "?);",
   { date := date, base := rsp.base,
     vals := rate_keys.map (fun x => if x = base_rate then (1 : Rat) else rsp.rates x) })

/-- `insert_into_table` (lines 96-113): the `date` primary key makes an INSERT
for an existing date raise `sqlite3.IntegrityError`, which is caught and
ignored — existing rows are never overwritten and no error escapes. -/
def insert_into_table (store : List Row) (r : Row) : List Row :=
  if store.any (fun q => q.date == r.date) then store else store ++ [r]

/-- `SELECT DISTINCT(base) ... fetchone()` guarded by `table_is_empty`
(lines 233-237): `None` for an empty table, else the base of a row. -/
def base_currency_in_table (store : List Row) : Option String :=
  store.head?.map Row.base

/-- Minimum of a list of naturals (0 on the empty list). -/
def listMin : List Nat → Nat
  | [] => 0
  | d :: ds => ds.foldl min d

/-- Maximum of a list of naturals (0 on the empty list). -/
def listMax : List Nat → Nat
  | [] => 0
  | d :: ds => ds.foldl max d

/-- `MIN(date)` over the table (0 is never consulted for an empty table). -/
def minDate (store : List Row) : Nat := listMin (store.map Row.date)

/-- `MAX(date)` over the table (0 is never consulted for an empty table). -/
def maxDate (store : List Row) : Nat := listMax (store.map Row.date)

/-- `check_date_arg` composed into `extract_dates` (lines 31-49): the assert
`start_date < end_date` is modelled as `Option` failure. -/
def extract_dates (start_date end_date : Nat) : Option (Nat × Nat) :=
  if start_date < end_date then some (start_date, end_date) else none

/-- `date_range = [start_date + timedelta(days=x) for x in range((end_date - start_date).days+1)]`
(line 202). -/
def date_range (start_date end_date : Nat) : List Nat :=
  (List.range (end_date - start_date + 1)).map (fun x => start_date + x)

/-- `date_range_in_table = [min_date_in_table + timedelta(days=x) for x in
range((max_date_in_table - min_date_in_table).days+1)]` (line 243). -/
def date_range_in_table (store : List Row) : List Nat :=
  date_range (minDate store) (maxDate store)

/-- `base_currency_to_use = args.base if base_currency_in_table is None or
args.populate else base_currency_in_table` (line 238). -/
def base_currency_to_use (argsBase : String) (populateFlag : Bool)
    (baseInTable : Option String) : String :=
  match baseInTable with
  | none => argsBase
  | some b => if populateFlag then argsBase else b

/-- The populate loop (lines 263-269): for each `dt` in `dates_to_pull`, fetch
a fresh response unless `dt` is a Saturday/Sunday (in which case the previous
`response` is reused), build the row, and insert it.  Also records which dates
were fetched over the network, in order. -/
def populateLoop (api : Api) (argsBase : String) (rate_keys : List String)
    (base_rate : String) :
    List Nat → Rsp → List Row → List Nat → Rsp × List Row × List Nat
  | [], response, store, fetched => (response, store, fetched)
  | dt :: rest, response, store, fetched =>
      let resp := if isWeekendDay dt then response else api argsBase dt
      let row := (get_insert_statement_and_values resp dt TABLE_NAME rate_keys base_rate).2
      populateLoop api argsBase rate_keys base_rate rest resp
        (insert_into_table store row)
        (if isWeekendDay dt then fetched else fetched ++ [dt])

/-- The outcome of one populate pass: the chosen `dates_to_pull`, the final
table, the network-fetched dates, and the in-memory date bounds, which line
271 overwrites with the requested start/end dates. -/
structure PopulateResult where
  dates_to_pull : List Nat
  store : List Row
  fetched : List Nat
  min_date_in_table : Nat
  max_date_in_table : Nat
deriving Repr

/-- The populate block (lines 249-271).  The bootstrap response of line 205
(`get_api_response(start_date)`, sent with `args.base`) supplies `rate_keys`
and is the initial `response` of the loop.  Inside this block
`args.populate` is true, so `base_currency_to_use` is computed with a true
populate flag.  Branch choice (line 250): incremental when
`base_currency_to_use == base_currency_in_table`, else truncate
(`DELETE FROM`) and pull the whole requested range. -/
def populate (api : Api) (argsBase : String) (start_date end_date : Nat)
    (store : List Row) : PopulateResult :=
  let bootstrap := api argsBase start_date
  let rate_keys := bootstrap.ratesKeys
  let buse := base_currency_to_use argsBase true (base_currency_in_table store)
  let incremental := base_currency_in_table store = some buse
  let dates_to_pull :=
    if incremental then
      (date_range start_date end_date).filter
        (fun d => decide (d ∉ date_range_in_table store))
    else date_range start_date end_date
  let startStore := if incremental then store else []
  let out := populateLoop api argsBase rate_keys buse dates_to_pull bootstrap startStore []
  { dates_to_pull := dates_to_pull
    store := out.2.1
    fetched := out.2.2
    min_date_in_table := start_date
    max_date_in_table := end_date }

/-- Entry to the daily-update block (lines 308-314): whether the base-mismatch
warning fires and where the polling cursor `query_date` starts.
`table_is_empty` and `base_currency_in_table` are the values read at lines
233/237 (before any populate pass); `max_date_in_table` is the current value
of that variable, which a preceding populate pass overwrites (line 271). -/
structure UpdateInit where
  warned : Bool
  query_date : Nat
deriving Repr, DecidableEq

/-- `if not table_is_empty: (warn if args.base != base_currency_in_table and
not args.populate); query_date = max_date_in_table + timedelta(days=1)
else: query_date = start_date`. -/
def update_init (argsBase : String) (populateFlag : Bool) (tableIsEmpty : Bool)
    (baseInTable : Option String) (max_date_in_table start_date : Nat) : UpdateInit :=
  if tableIsEmpty then
    { warned := false, query_date := start_date }
  else
    { warned := decide (some argsBase ≠ baseInTable) && !populateFlag
      query_date := max_date_in_table + 1 }

/-- One wake-up of the `while True` update loop (lines 315-324): when
wall-clock `today_date` is strictly past `query_date`, fetch the cursor date
(`get_api_response(query_date)` — sent with `args.base`, and with no weekend
test), insert the row, and advance the cursor.  The second component lists the
`(base, date)` network calls issued during this wake-up. -/
def updateStep (api : Api) (argsBase base_rate : String) (rate_keys : List String)
    (today : Nat) (store : List Row) (query_date : Nat) :
    (List Row × Nat) × List (String × Nat) :=
  if query_date < today then
    let response := api argsBase query_date
    let row := (get_insert_statement_and_values response query_date TABLE_NAME rate_keys base_rate).2
    ((insert_into_table store row, query_date + 1), [(argsBase, query_date)])
  else
    ((store, query_date), [])

/-- Observable events of a run, in program order. -/
inductive Ev where
  | fetch (base : String) (date : Nat)
  | currencyError (missing : List String)
  | insertRow (date : Nat)
deriving DecidableEq, Repr

/-- The network/insert events of the populate loop, in loop order: a weekday
issues a fetch then an insert, a weekend date only an insert. -/
def populateEvents (argsBase : String) (dates_to_pull : List Nat) : List Ev :=
  dates_to_pull.flatMap (fun dt =>
    if isWeekendDay dt then [Ev.insertRow dt]
    else [Ev.fetch argsBase dt, Ev.insertRow dt])

/-- Program-order event trace of a run from the top of the script through the
populate block (lines 201-271): first the bootstrap
`get_api_response(start_date)` of line 205, then the countries validation of
lines 212-216 (`set_diff = set(countries).difference(set(rate_keys))`,
`assert not len(set_diff)`), which aborts the run when it fails; only then,
if requested, the populate pass. -/
def runTrace (api : Api) (argsBase : String) (countries : List String)
    (start_date end_date : Nat) (store : List Row) (populateFlag : Bool) : List Ev :=
  let bootstrap := api argsBase start_date
  let rate_keys := bootstrap.ratesKeys
  let set_diff := countries.filter (fun c => !(rate_keys.contains c))
  Ev.fetch argsBase start_date ::
    (if set_diff.isEmpty then
      (if populateFlag then
        populateEvents argsBase (populate api argsBase start_date end_date store).dates_to_pull
      else [])
    else [Ev.currencyError set_diff])

/-- The two range asserts of the visualize block (lines 284-285):
`start_date >= min_date_in_table` and `end_date <= max_date_in_table`. -/
def visualize_range_ok (min_date_in_table max_date_in_table start_date end_date : Nat) : Bool :=
  decide (min_date_in_table ≤ start_date) && decide (end_date ≤ max_date_in_table)

/-- A concrete provider used by counterexamples and witnesses: echoes the
requested base, knows the currencies `USD` and `CAD`, and quotes `CAD` at a
distinct value per date so that snapshots for different days differ. -/
def api0 : Api := fun b d =>
  { base := b, ratesKeys := [USD, CAD], rates := fun c => if c = CAD then (d : Rat) else 1 }

/-- A cached row for date `d` as an identical earlier `api0`/`USD` run would
have produced it. -/
def row0 (d : Nat) : Row := { date := d, base := USD, vals := [1, (d : Rat)] }

/-- A concrete store holding `USD`-based rows for days 0..4 (Monday..Friday). -/
def store0 : List Row := [row0 0, row0 1, row0 2, row0 3, row0 4]

/-- A concrete store holding a single `USD`-based row for day 9. -/
def store9 : List Row := [row0 9]

/-- A concrete provider whose `rates` mapping omits the base currency: it only
quotes `CAD` and `EUR`, never the requested base itself. -/
def apiNB : Api := fun _ _ =>
  { base := USD, ratesKeys := [CAD, EUR], rates := fun c => if c = CAD then (2 : Rat) else 3 }

/-- `table_keys = ['date', 'base'] + rate_keys` (line 209): the full column
set of the table, fixed from the bootstrap response. -/
def table_keys (rate_keys : List String) : List String := ["date", "base"] ++ rate_keys

/-- The rows the populate loop appends, in processing order: a recomputation
of the loop's row construction used to state its correctness. -/
def builtRows (api : Api) (argsBase : String) (rate_keys : List String)
    (base_rate : String) : List Nat → Rsp → List Row
  | [], _ => []
  | dt :: rest, response =>
      let resp := if isWeekendDay dt then response else api argsBase dt
      (get_insert_statement_and_values resp dt TABLE_NAME rate_keys base_rate).2 ::
        builtRows api argsBase rate_keys base_rate rest resp

/-- The date whose snapshot is "most recent" after processing the dates of
`processed`: the last non-weekend date of `processed`, or `start_date` (whose
bootstrap snapshot initialises `response`) when there is none. -/
def lastTradingBefore (start_date : Nat) (processed : List Nat) : Nat :=
  ((processed.filter (fun d => !isWeekendDay d)).getLast?).getD start_date

/-- The date whose snapshot the loop persists for the `i`-th entry of its date
list `l`: the entry itself on a weekday, else the carried-forward
`lastTradingBefore` date. -/
def carry_source (start_date : Nat) (l : List Nat) (i : Nat) : Nat :=
  if isWeekendDay (l.getD i 0) then lastTradingBefore start_date (l.take i)
  else l.getD i 0

/-! ## Generic list lemmas -/

theorem foldl_min_le_init (ds : List Nat) : ∀ a : Nat, ds.foldl min a ≤ a := by
  induction ds with
  | nil => intro a; simp
  | cons d ds ih =>
      intro a
      calc ds.foldl min (min a d) ≤ min a d := ih (min a d)
        _ ≤ a := min_le_left a d

theorem foldl_min_le_mem (ds : List Nat) : ∀ a x : Nat, x ∈ ds → ds.foldl min a ≤ x := by
  induction ds with
  | nil => intro a x hx; cases hx
  | cons d ds ih =>
      intro a x hx
      rcases List.mem_cons.mp hx with rfl | hx
      · calc ds.foldl min (min a x) ≤ min a x := foldl_min_le_init ds (min a x)
          _ ≤ x := min_le_right a x
      · exact ih (min a d) x hx

theorem foldl_min_eq_or_mem (ds : List Nat) : ∀ a : Nat, ds.foldl min a = a ∨ ds.foldl min a ∈ ds := by
  induction ds with
  | nil => intro a; left; rfl
  | cons d ds ih =>
      intro a
      rcases ih (min a d) with h | h
      · rw [List.foldl_cons, h]
        rcases Nat.le_total a d with hle | hle
        · left
          rw [min_def]
          split <;> omega
        · right
          have hmin : min a d = d := by
            rw [min_def]
            split <;> omega
          rw [hmin]
          exact List.mem_cons_self d ds
      · right
        rw [List.foldl_cons]
        exact List.mem_cons_of_mem d h

theorem foldl_max_init_le (ds : List Nat) : ∀ a : Nat, a ≤ ds.foldl max a := by
  induction ds with
  | nil => intro a; simp
  | cons d ds ih =>
      intro a
      calc a ≤ max a d := Nat.le_max_left a d
        _ ≤ ds.foldl max (max a d) := ih (max a d)

theorem foldl_max_mem_le (ds : List Nat) : ∀ a x : Nat, x ∈ ds → x ≤ ds.foldl max a := by
  induction ds with
  | nil => intro a x hx; cases hx
  | cons d ds ih =>
      intro a x hx
      rcases List.mem_cons.mp hx with rfl | hx
      · calc x ≤ max a x := Nat.le_max_right a x
          _ ≤ ds.foldl max (max a x) := foldl_max_init_le ds (max a x)
      · exact ih (max a d) x hx

theorem listMin_le {ds : List Nat} {x : Nat} (hx : x ∈ ds) : listMin ds ≤ x := by
  cases ds with
  | nil => cases hx
  | cons d tl =>
      rcases List.mem_cons.mp hx with rfl | hx
      · exact foldl_min_le_init tl x
      · exact foldl_min_le_mem tl d x hx

theorem le_listMax {ds : List Nat} {x : Nat} (hx : x ∈ ds) : x ≤ listMax ds := by
  cases ds with
  | nil => cases hx
  | cons d tl =>
      rcases List.mem_cons.mp hx with rfl | hx
      · exact foldl_max_init_le tl x
      · exact foldl_max_mem_le tl d x hx

theorem listMin_mem {ds : List Nat} (h : ds ≠ []) : listMin ds ∈ ds := by
  cases ds with
  | nil => exact absurd rfl h
  | cons d tl =>
      rcases foldl_min_eq_or_mem tl d with heq | hm
      · rw [listMin, heq]; exact List.mem_cons_self d tl
      · exact List.mem_cons_of_mem d hm

theorem foldl_max_eq_or_mem (ds : List Nat) : ∀ a : Nat, ds.foldl max a = a ∨ ds.foldl max a ∈ ds := by
  induction ds with
  | nil => intro a; left; rfl
  | cons d ds ih =>
      intro a
      rcases ih (max a d) with h | h
      · rw [List.foldl_cons, h]
        rcases Nat.le_total a d with hle | hle
        · right
          have hmax : max a d = d := by
            rw [Nat.max_def]
            split <;> omega
          rw [hmax]
          exact List.mem_cons_self d ds
        · left
          rw [Nat.max_def]
          split <;> omega
      · right
        rw [List.foldl_cons]
        exact List.mem_cons_of_mem d h

theorem listMax_mem {ds : List Nat} (h : ds ≠ []) : listMax ds ∈ ds := by
  cases ds with
  | nil => exact absurd rfl h
  | cons d tl =>
      rcases foldl_max_eq_or_mem tl d with heq | hm
      · rw [listMax, heq]; exact List.mem_cons_self d tl
      · exact List.mem_cons_of_mem d hm

/-! ## `date_range` and table-span lemmas -/

theorem mem_date_range {s e d : Nat} (hse : s ≤ e) :
    d ∈ date_range s e ↔ s ≤ d ∧ d ≤ e := by
  simp only [date_range, List.mem_map, List.mem_range]
  constructor
  · rintro ⟨x, hx, rfl⟩; omega
  · rintro ⟨h1, h2⟩; exact ⟨d - s, by omega, by omega⟩

theorem date_range_length (s e : Nat) : (date_range s e).length = e - s + 1 := by
  simp [date_range]

theorem date_range_get (s e i : Nat) (h : i < (date_range s e).length) :
    (date_range s e).get ⟨i, h⟩ = s + i := by
  simp [date_range]

theorem date_range_nodup (s e : Nat) : (date_range s e).Nodup := by
  refine List.Nodup.map (fun a b hab => by omega) (List.nodup_range _)

theorem row_date_mem_span {store : List Row} {r : Row} (hr : r ∈ store) :
    r.date ∈ date_range_in_table store := by
  have hmem : r.date ∈ store.map Row.date := List.mem_map_of_mem Row.date hr
  have h1 : minDate store ≤ r.date := listMin_le hmem
  have h2 : r.date ≤ maxDate store := le_listMax hmem
  exact (mem_date_range (Nat.le_trans h1 h2)).mpr ⟨h1, h2⟩

/-! ## Insert and populate-loop decomposition -/

theorem insert_into_table_absent {store : List Row} {r : Row}
    (h : ∀ q ∈ store, q.date ≠ r.date) : insert_into_table store r = store ++ [r] := by
  unfold insert_into_table
  rw [if_neg]
  simp only [List.any_eq_true, beq_iff_eq, not_exists]
  intro q hq
  exact h q hq.1 hq.2

theorem insert_into_table_present {store : List Row} {r : Row}
    (h : ∃ q ∈ store, q.date = r.date) : insert_into_table store r = store := by
  unfold insert_into_table
  rw [if_pos]
  simp only [List.any_eq_true, beq_iff_eq]
  exact h

theorem populateLoop_cons (api : Api) (argsBase : String) (rate_keys : List String)
    (base_rate : String) (dt : Nat) (rest : List Nat) (response : Rsp)
    (store : List Row) (fetched : List Nat) :
    populateLoop api argsBase rate_keys base_rate (dt :: rest) response store fetched =
      populateLoop api argsBase rate_keys base_rate rest
        (if isWeekendDay dt then response else api argsBase dt)
        (insert_into_table store
          (get_insert_statement_and_values
            (if isWeekendDay dt then response else api argsBase dt)
            dt TABLE_NAME rate_keys base_rate).2)
        (if isWeekendDay dt then fetched else fetched ++ [dt]) := rfl

theorem builtRows_cons (api : Api) (argsBase : String) (rate_keys : List String)
    (base_rate : String) (dt : Nat) (rest : List Nat) (response : Rsp) :
    builtRows api argsBase rate_keys base_rate (dt :: rest) response =
      (get_insert_statement_and_values
        (if isWeekendDay dt then response else api argsBase dt)
        dt TABLE_NAME rate_keys base_rate).2 ::
      builtRows api argsBase rate_keys base_rate rest
        (if isWeekendDay dt then response else api argsBase dt) := rfl

theorem populateLoop_store (api : Api) (argsBase : String) (rate_keys : List String)
    (base_rate : String) :
    ∀ (l : List Nat) (response : Rsp) (store : List Row) (fetched : List Nat),
      l.Nodup → (∀ d ∈ l, ∀ r ∈ store, r.date ≠ d) →
      (populateLoop api argsBase rate_keys base_rate l response store fetched).2.1 =
        store ++ builtRows api argsBase rate_keys base_rate l response := by
  intro l
  induction l with
  | nil =>
      intro response store fetched _ _
      simp [populateLoop, builtRows]
  | cons dt rest ih =>
      intro response store fetched hnd hdisj
      rw [populateLoop_cons, builtRows_cons]
      have hrowdate :
          (get_insert_statement_and_values
            (if isWeekendDay dt then response else api argsBase dt)
            dt TABLE_NAME rate_keys base_rate).2.date = dt := rfl
      rw [insert_into_table_absent (fun q hq => by
        rw [hrowdate]
        exact hdisj dt (List.mem_cons_self dt rest) q hq)]
      rw [ih _ _ _ (List.nodup_cons.mp hnd).2 ?_]
      · simp
      · intro d hd r hr
        rcases List.mem_append.mp hr with hr | hr
        · exact hdisj d (List.mem_cons_of_mem dt hd) r hr
        · rcases List.mem_singleton.mp hr with rfl
          rw [hrowdate]
          intro hcontra
          exact (List.nodup_cons.mp hnd).1 (hcontra ▸ hd)

theorem populateLoop_fetched (api : Api) (argsBase : String) (rate_keys : List String)
    (base_rate : String) :
    ∀ (l : List Nat) (response : Rsp) (store : List Row) (fetched : List Nat),
      (populateLoop api argsBase rate_keys base_rate l response store fetched).2.2 =
        fetched ++ l.filter (fun d => !isWeekendDay d) := by
  intro l
  induction l with
  | nil =>
      intro response store fetched
      simp [populateLoop]
  | cons dt rest ih =>
      intro response store fetched
      rw [populateLoop_cons, ih]
      cases h : isWeekendDay dt
      · simp [List.filter_cons, h]
      · simp [List.filter_cons, h]

/-! ## Properties of the appended rows -/

theorem builtRows_length (api : Api) (argsBase : String) (rate_keys : List String)
    (base_rate : String) :
    ∀ (l : List Nat) (response : Rsp),
      (builtRows api argsBase rate_keys base_rate l response).length = l.length := by
  intro l
  induction l with
  | nil => intro response; rfl
  | cons dt rest ih =>
      intro response
      rw [builtRows_cons]
      simp [ih]

theorem builtRows_dates (api : Api) (argsBase : String) (rate_keys : List String)
    (base_rate : String) :
    ∀ (l : List Nat) (response : Rsp),
      (builtRows api argsBase rate_keys base_rate l response).map Row.date = l := by
  intro l
  induction l with
  | nil => intro response; rfl
  | cons dt rest ih =>
      intro response
      rw [builtRows_cons]
      simp only [List.map_cons, ih]
      rfl

theorem builtRows_mem_shape (api : Api) (argsBase : String) (rate_keys : List String)
    (base_rate : String) :
    ∀ (l : List Nat) (response : Rsp) (r : Row),
      r ∈ builtRows api argsBase rate_keys base_rate l response →
      ∃ rsp : Rsp, ∃ d : Nat,
        r = (get_insert_statement_and_values rsp d TABLE_NAME rate_keys base_rate).2 := by
  intro l
  induction l with
  | nil => intro response r hr; cases hr
  | cons dt rest ih =>
      intro response r hr
      rw [builtRows_cons] at hr
      rcases List.mem_cons.mp hr with rfl | hr
      · exact ⟨_, dt, rfl⟩
      · exact ih _ r hr

theorem builtRows_base (api : Api) (argsBase : String) (rate_keys : List String)
    (base_rate : String) (hecho : ∀ d, (api argsBase d).base = argsBase) :
    ∀ (l : List Nat) (response : Rsp), response.base = argsBase →
      ∀ r ∈ builtRows api argsBase rate_keys base_rate l response, r.base = argsBase := by
  intro l
  induction l with
  | nil => intro response _ r hr; cases hr
  | cons dt rest ih =>
      intro response hresp r hr
      rw [builtRows_cons] at hr
      have hresp2 : (if isWeekendDay dt then response else api argsBase dt).base = argsBase := by
        cases h : isWeekendDay dt
        · simpa [h] using hecho dt
        · simpa [h] using hresp
      rcases List.mem_cons.mp hr with rfl | hr
      · exact hresp2
      · exact ih _ hresp2 r hr

/-! ## The carry-forward source date -/

theorem lastTradingBefore_nil (start_date : Nat) :
    lastTradingBefore start_date [] = start_date := rfl

theorem lastTradingBefore_cons (start_date dt : Nat) (p : List Nat) :
    lastTradingBefore start_date (dt :: p) =
      lastTradingBefore (if isWeekendDay dt then start_date else dt) p := by
  cases h : isWeekendDay dt
  · simp only [lastTradingBefore, List.filter_cons, h]
    simp only [Bool.not_false, if_pos]
    cases hp : p.filter (fun d => !isWeekendDay d) with
    | nil => simp
    | cons x xs =>
        simp only [List.getLast?_cons_cons]
        rcases Option.isSome_iff_exists.mp (by simp : (x :: xs).getLast?.isSome) with ⟨y, hy⟩
        rw [hy]
        rfl
  · simp only [lastTradingBefore, List.filter_cons, h]
    simp

theorem builtRows_get? (api : Api) (argsBase : String) (rate_keys : List String)
    (base_rate : String) :
    ∀ (l : List Nat) (f0 : Nat) (i : Nat), i < l.length →
      (builtRows api argsBase rate_keys base_rate l (api argsBase f0)).get? i =
        some (get_insert_statement_and_values
          (api argsBase (carry_source f0 l i)) (l.getD i 0)
          TABLE_NAME rate_keys base_rate).2 := by
  intro l
  induction l with
  | nil => intro f0 i hi; cases hi
  | cons dt rest ih =>
      intro f0 i hi
      have hresp : (if isWeekendDay dt then api argsBase f0 else api argsBase dt) =
          api argsBase (if isWeekendDay dt then f0 else dt) := by
        cases h : isWeekendDay dt <;> simp [h]
      rw [builtRows_cons, hresp]
      cases i with
      | zero =>
          simp only [List.get?_cons_zero, Option.some.injEq]
          have hcs : carry_source f0 (dt :: rest) 0 =
              (if isWeekendDay dt then f0 else dt) := by
            cases h : isWeekendDay dt <;>
              simp [carry_source, h, lastTradingBefore_nil]
          rw [hcs]
          rfl
      | succ j =>
          simp only [List.get?_cons_succ]
          rw [ih (if isWeekendDay dt then f0 else dt) j (by simpa using hi)]
          have hcs : carry_source f0 (dt :: rest) (j + 1) =
              carry_source (if isWeekendDay dt then f0 else dt) rest j := by
            simp only [carry_source, List.getD_cons_succ, List.take_succ_cons,
              lastTradingBefore_cons]
          rw [hcs]
          rfl

/-! ## Populate-pass decomposition -/

theorem buse_populate (argsBase : String) (b : Option String) :
    base_currency_to_use argsBase true b = argsBase := by
  cases b <;> rfl

theorem populate_dates_to_pull (api : Api) (argsBase : String) (s e : Nat) (store : List Row) :
    (populate api argsBase s e store).dates_to_pull =
      if base_currency_in_table store = some argsBase then
        (date_range s e).filter (fun d => decide (d ∉ date_range_in_table store))
      else date_range s e := by
  simp only [populate, buse_populate]

theorem populate_min_date (api : Api) (argsBase : String) (s e : Nat) (store : List Row) :
    (populate api argsBase s e store).min_date_in_table = s := rfl

theorem populate_max_date (api : Api) (argsBase : String) (s e : Nat) (store : List Row) :
    (populate api argsBase s e store).max_date_in_table = e := rfl

theorem populate_fetched (api : Api) (argsBase : String) (s e : Nat) (store : List Row) :
    (populate api argsBase s e store).fetched =
      (populate api argsBase s e store).dates_to_pull.filter (fun d => !isWeekendDay d) := by
  rw [populate_dates_to_pull]
  simp only [populate, buse_populate]
  by_cases hb : base_currency_in_table store = some argsBase <;>
    simp [hb, populateLoop_fetched]

theorem populate_store_decomp (api : Api) (argsBase : String) (s e : Nat) (store : List Row) :
    (populate api argsBase s e store).store =
      (if base_currency_in_table store = some argsBase then store else []) ++
        builtRows api argsBase (api argsBase s).ratesKeys argsBase
          (populate api argsBase s e store).dates_to_pull (api argsBase s) := by
  rw [populate_dates_to_pull]
  simp only [populate, buse_populate]
  by_cases hb : base_currency_in_table store = some argsBase
  · simp only [hb, if_pos, if_true]
    apply populateLoop_store
    · exact List.Nodup.filter _ (date_range_nodup s e)
    · intro d hd r hr
      have hnotin : d ∉ date_range_in_table store := by
        have hmem := (List.mem_filter.mp hd).2
        simpa using hmem
      intro hcontra
      exact hnotin (hcontra ▸ row_date_mem_span hr)
  · simp only [hb, if_neg, if_false]
    apply populateLoop_store
    · exact date_range_nodup s e
    · intro d _ r hr
      cases hr

/-! ## Claim theorems -/

theorem base_in_table_ne_nil {store : List Row} {b : String}
    (h : base_currency_in_table store = some b) : store ≠ [] := by
  intro hnil
  rw [hnil] at h
  cases h

/-- Claim C8 (confirmed): date-range resolution fails exactly when
`start >= end`, and for every valid pair it produces the ordered,
duplicate-free, contiguous sequence of calendar dates from `start` to `end`
inclusive, of length `(end - start) + 1`.  `extract_dates` and `date_range`
are pure functions, so resolution has no side effects; the entry at index `i`
being `start + i` makes the sequence ordered, contiguous and gap-free. -/
theorem C8_range_resolution (s e : Nat) :
    (extract_dates s e = none ↔ e ≤ s) ∧
    (s < e →
      extract_dates s e = some (s, e) ∧
      (date_range s e).length = e - s + 1 ∧
      (∀ i (h : i < (date_range s e).length), (date_range s e).get ⟨i, h⟩ = s + i) ∧
      (date_range s e).Nodup ∧
      (∀ d, d ∈ date_range s e ↔ s ≤ d ∧ d ≤ e)) := by
  constructor
  · unfold extract_dates
    by_cases h : s < e <;> simp [h] <;> omega
  · intro h
    exact ⟨by simp [extract_dates, h], date_range_length s e,
      fun i hi => date_range_get s e i hi, date_range_nodup s e,
      fun d => mem_date_range (Nat.le_of_lt h)⟩

/-- Witness for C8: resolution fails on the inverted pair `(5, 3)` and
succeeds on `(2, 5)` with a 4-day range. -/
theorem C8_range_resolution_witness :
    extract_dates 5 3 = none ∧ extract_dates 2 5 = some (2, 5) ∧
    (date_range 2 5).length = 4 := by
  refine ⟨(C8_range_resolution 5 3).1.mpr (by decide), ?_, ?_⟩
  · exact ((C8_range_resolution 2 5).2 (by decide)).1
  · exact ((C8_range_resolution 2 5).2 (by decide)).2.1

/-- Claim C5 (confirmed): inserting a row whose date already exists is a
no-op (`sqlite3.IntegrityError` is swallowed, nothing is overwritten, and
`insert_into_table` is total, so no error reaches the caller), and re-running
populate with the identical `(range, base)` against a store that already
holds exactly those dates under that base computes an empty `dates_to_pull`,
performs zero inserts and zero fetches, and leaves the store unchanged. -/
theorem C5_idempotence (store : List Row) (r : Row)
    (api : Api) (argsBase : String) (s e : Nat) (store2 : List Row)
    (hdup : ∃ q ∈ store, q.date = r.date)
    (hne : store2 ≠ [])
    (hbase : base_currency_in_table store2 = some argsBase)
    (hdates : ∀ d, d ∈ store2.map Row.date ↔ d ∈ date_range s e)
    (hse : s ≤ e) :
    insert_into_table store r = store ∧
    (populate api argsBase s e store2).dates_to_pull = [] ∧
    (populate api argsBase s e store2).store = store2 ∧
    (populate api argsBase s e store2).fetched = [] := by
  have hmapne : store2.map Row.date ≠ [] := by
    intro hc
    exact hne (List.map_eq_nil.mp hc)
  have hsmem : s ∈ store2.map Row.date :=
    (hdates s).mpr ((mem_date_range hse).mpr ⟨Nat.le_refl s, hse⟩)
  have hemem : e ∈ store2.map Row.date :=
    (hdates e).mpr ((mem_date_range hse).mpr ⟨hse, Nat.le_refl e⟩)
  have hmin : minDate store2 = s := by
    have h1 : listMin (store2.map Row.date) ≤ s := listMin_le hsmem
    have h2 : s ≤ listMin (store2.map Row.date) :=
      ((mem_date_range hse).mp ((hdates _).mp (listMin_mem hmapne))).1
    exact Nat.le_antisymm h1 h2
  have hmax : maxDate store2 = e := by
    have h1 : e ≤ listMax (store2.map Row.date) := le_listMax hemem
    have h2 : listMax (store2.map Row.date) ≤ e :=
      ((mem_date_range hse).mp ((hdates _).mp (listMax_mem hmapne))).2
    exact Nat.le_antisymm h2 h1
  have hspan : date_range_in_table store2 = date_range s e := by
    unfold date_range_in_table minDate maxDate at *
    rw [hmin, hmax]
  have hdtp : (populate api argsBase s e store2).dates_to_pull = [] := by
    rw [populate_dates_to_pull, if_pos hbase, hspan]
    rw [List.filter_eq_nil]
    intro d hd
    simp [hd]
  refine ⟨insert_into_table_present hdup, hdtp, ?_, ?_⟩
  · rw [populate_store_decomp, hdtp, if_pos hbase]
    simp [builtRows]
  · rw [populate_fetched, hdtp]
    rfl

/-- Witness for C5: a duplicate insert of day 3 into `store0` is a no-op, and
re-running populate for days 0..4 with base `USD` against `store0` (which is
exactly that data) pulls nothing, fetches nothing and changes nothing. -/
theorem C5_idempotence_witness :
    insert_into_table store0 (row0 3) = store0 ∧
    (populate api0 USD 0 4 store0).dates_to_pull = [] ∧
    (populate api0 USD 0 4 store0).store = store0 ∧
    (populate api0 USD 0 4 store0).fetched = [] := by
  have h := C5_idempotence store0 (row0 3) api0 USD 0 4 store0
    ⟨row0 3, by decide, rfl⟩ (by decide) (by decide)
    (fun d => by
      have h1 : store0.map Row.date = [0, 1, 2, 3, 4] := by decide
      have h2 : date_range 0 4 = [0, 1, 2, 3, 4] := by decide
      rw [h1, h2])
    (by decide)
  exact h

/-- Claim C2 (confirmed): when the effective base currency (under populate,
always `args.base`) equals the cached base currency, or the cache is empty,
`dates_to_pull` is exactly the requested range minus the full contiguous date
span of the cache (`date_range_in_table`, from cached min to max — nothing is
subtracted for an empty cache), and every existing row is left untouched (the
prior store is preserved verbatim as a prefix of the resulting store).
For the empty cache the code takes the truncate branch, but truncating an
empty table deletes nothing, so the observable behaviour is the incremental
one the claim describes. -/
theorem C2_incremental_selection (api : Api) (argsBase : String) (s e : Nat)
    (store : List Row)
    (hbase : store = [] ∨ base_currency_in_table store = some argsBase) (d : Nat) :
    (d ∈ (populate api argsBase s e store).dates_to_pull ↔
      d ∈ date_range s e ∧ (store ≠ [] → d ∉ date_range_in_table store)) ∧
    (populate api argsBase s e store).store.take store.length = store := by
  rcases hbase with rfl | hbase
  · constructor
    · rw [populate_dates_to_pull]
      have hcond : ¬ base_currency_in_table ([] : List Row) = some argsBase := by
        intro h; cases h
      rw [if_neg hcond]
      simp
    · simp
  · have hne : store ≠ [] := base_in_table_ne_nil hbase
    constructor
    · rw [populate_dates_to_pull, if_pos hbase]
      simp only [List.mem_filter, decide_eq_true_eq]
      constructor
      · rintro ⟨h1, h2⟩
        exact ⟨h1, fun _ => h2⟩
      · rintro ⟨h1, h2⟩
        exact ⟨h1, h2 hne⟩
    · rw [populate_store_decomp, if_pos hbase]
      exact List.take_left store _

/-- Witness for C2 on `store0` (cached `USD` days 0..4) with an identical base
and requested range 0..6: day 5 is pulled exactly because it lies in the
requested range and outside the cached span, and the five cached rows survive
unchanged. -/
theorem C2_incremental_selection_witness :
    (5 ∈ (populate api0 USD 0 6 store0).dates_to_pull ↔
      5 ∈ date_range 0 6 ∧ (store0 ≠ [] → 5 ∉ date_range_in_table store0)) ∧
    (populate api0 USD 0 6 store0).store.take store0.length = store0 :=
  C2_incremental_selection api0 USD 0 6 store0 (Or.inr (by decide)) 5

/-- Claim C4 (confirmed): with a rebuild explicitly requested (populate flag
set) and an effective base currency different from the cached one, the code
takes the truncate branch: all prior rows are purged before any insert,
`dates_to_pull` is the whole requested range, and the resulting cache holds
exactly one row per requested date, all under the new base currency (given
that the provider echoes the requested base in its responses). -/
theorem C4_rebuild (api : Api) (argsBase b : String) (s e : Nat) (store : List Row)
    (hb : base_currency_in_table store = some b)
    (hdiff : b ≠ argsBase)
    (hecho : ∀ d, (api argsBase d).base = argsBase) :
    (populate api argsBase s e store).dates_to_pull = date_range s e ∧
    (populate api argsBase s e store).store.map Row.date = date_range s e ∧
    (populate api argsBase s e store).store.all (fun r => r.base == argsBase) = true := by
  have hcond : ¬ base_currency_in_table store = some argsBase := by
    rw [hb]
    intro h
    exact hdiff (Option.some.injEq b argsBase ▸ h)
  have hdtp : (populate api argsBase s e store).dates_to_pull = date_range s e := by
    rw [populate_dates_to_pull, if_neg hcond]
  refine ⟨hdtp, ?_, ?_⟩
  · rw [populate_store_decomp, if_neg hcond, hdtp, List.nil_append]
    exact builtRows_dates api argsBase _ argsBase (date_range s e) (api argsBase s)
  · rw [populate_store_decomp, if_neg hcond, hdtp, List.nil_append]
    rw [List.all_eq_true]
    intro r hr
    rw [beq_iff_eq]
    exact builtRows_base api argsBase _ argsBase hecho (date_range s e)
      (api argsBase s) (hecho s) r hr

/-- Witness for C4: rebuilding days 0..2 with base `EUR` over the `USD` cache
`store0` purges it and produces exactly `EUR`-based rows for days 0..2. -/
theorem C4_rebuild_witness :
    (populate api0 EUR 0 2 store0).dates_to_pull = date_range 0 2 ∧
    (populate api0 EUR 0 2 store0).store.map Row.date = date_range 0 2 ∧
    (populate api0 EUR 0 2 store0).store.all (fun r => r.base == EUR) = true :=
  C4_rebuild api0 EUR USD 0 2 store0 (by decide) (by decide) (fun d => rfl)

/-- Claim C10 (confirmed): line 271 overwrites the in-memory table bounds with
the requested start/end dates instead of re-reading them from the store, so in
the same run the visualize range asserts (lines 284-285) pass against the
requested bounds, and a subsequent update block starts its cursor at
requested end + 1 (line 312 uses the overwritten `max_date_in_table`) even
when the cache's actual maximum cached date is later. -/
theorem C10_bounds_overwrite (api : Api) (argsBase : String) (s e : Nat)
    (store : List Row) (hne : store ≠ []) :
    (populate api argsBase s e store).min_date_in_table = s ∧
    (populate api argsBase s e store).max_date_in_table = e ∧
    visualize_range_ok (populate api argsBase s e store).min_date_in_table
      (populate api argsBase s e store).max_date_in_table s e = true ∧
    (update_init argsBase true store.isEmpty (base_currency_in_table store)
      (populate api argsBase s e store).max_date_in_table s).query_date = e + 1 ∧
    (e < maxDate store →
      (update_init argsBase true store.isEmpty (base_currency_in_table store)
        (populate api argsBase s e store).max_date_in_table s).query_date ≠
        maxDate store + 1) := by
  have hempty : store.isEmpty = false := by
    cases store with
    | nil => exact absurd rfl hne
    | cons r rs => rfl
  have hq : (update_init argsBase true store.isEmpty (base_currency_in_table store)
      (populate api argsBase s e store).max_date_in_table s).query_date = e + 1 := by
    rw [hempty, populate_max_date]
    rfl
  refine ⟨populate_min_date api argsBase s e store, populate_max_date api argsBase s e store,
    ?_, hq, ?_⟩
  · rw [populate_min_date, populate_max_date]
    simp [visualize_range_ok]
  · intro hlt
    rw [hq]
    omega

/-- Witness for C10: after populating days 0..6 over a cache whose maximum
cached date is day 40, the update cursor starts at day 7, not day 41. -/
theorem C10_bounds_overwrite_witness :
    (populate api0 USD 0 6 [row0 40]).min_date_in_table = 0 ∧
    (populate api0 USD 0 6 [row0 40]).max_date_in_table = 6 ∧
    visualize_range_ok (populate api0 USD 0 6 [row0 40]).min_date_in_table
      (populate api0 USD 0 6 [row0 40]).max_date_in_table 0 6 = true ∧
    (update_init USD true ([row0 40] : List Row).isEmpty (base_currency_in_table [row0 40])
      (populate api0 USD 0 6 [row0 40]).max_date_in_table 0).query_date = 6 + 1 ∧
    (6 < maxDate [row0 40] →
      (update_init USD true ([row0 40] : List Row).isEmpty (base_currency_in_table [row0 40])
        (populate api0 USD 0 6 [row0 40]).max_date_in_table 0).query_date ≠
        maxDate [row0 40] + 1) :=
  C10_bounds_overwrite api0 USD 0 6 [row0 40] (by decide)

/-- Counterexample for C6: on a provider whose `rates` mapping omits the base
currency, this variant synthesizes nothing — `rate_keys = list(response['rates'].keys())`
(line 206) is used as-is, so the table has no column for the base currency at
all (`USD ∉ table_keys`), and the persisted row for day 0, whose own base is
`USD`, carries the values `[2, 3]`, none of which is `1.0`.  (The
`1.0 if x == base_rate` substitution in `get_insert_statement_and_values`
only fires for a key that is present.) -/
theorem C6_counterexample :
    USD ∉ table_keys (apiNB USD 0).ratesKeys ∧
    ((populate apiNB USD 0 2 []).store.find? (fun r => r.date == 0)).map Row.base = some USD ∧
    ((populate apiNB USD 0 2 []).store.find? (fun r => r.date == 0)).map Row.vals = some [2, 3] ∧
    (1 : Rat) ∉ [(2 : Rat), 3] := by decide

/-- Claim C6 as amended: every row persisted by a populate pass carries the
exact value `1.0` at the position of the effective base currency within the
bootstrap response's rate-key list, **provided the provider's response
contains the base currency among its rate keys**; when the provider omits the
base currency, no column for it is synthesized (the row simply has no base
column), unlike what the claim states. -/
theorem C6_base_unit_column (api : Api) (argsBase : String) (s e : Nat) (store : List Row)
    (i : Nat) (hi : i < (api argsBase s).ratesKeys.length)
    (hkey : (api argsBase s).ratesKeys.get ⟨i, hi⟩ = argsBase) :
    ∃ kept newRows, (populate api argsBase s e store).store = kept ++ newRows ∧
      (kept = store ∨ kept = []) ∧
      newRows.all (fun r => r.vals.get? i == some 1) = true := by
  refine ⟨if base_currency_in_table store = some argsBase then store else [], _,
    populate_store_decomp api argsBase s e store, ?_, ?_⟩
  · by_cases hb : base_currency_in_table store = some argsBase
    · left; rw [if_pos hb]
    · right; rw [if_neg hb]
  · rw [List.all_eq_true]
    intro r hr
    rcases builtRows_mem_shape api argsBase ((api argsBase s).ratesKeys) argsBase _ _ r hr
      with ⟨rsp, d, rfl⟩
    rw [beq_iff_eq]
    show ((api argsBase s).ratesKeys.map
      (fun x => if x = argsBase then (1 : Rat) else rsp.rates x)).get? i = some 1
    rw [List.get?_map, List.get?_eq_get hi, hkey]
    simp

/-- Witness for C6 as amended: with `api0` the base `USD` is the first rate
key, and the three freshly built rows for days 0..2 all carry `1.0` there. -/
theorem C6_base_unit_column_witness :
    ∃ kept newRows, (populate api0 USD 0 2 []).store = kept ++ newRows ∧
      (kept = ([] : List Row) ∨ kept = []) ∧
      newRows.all (fun r => r.vals.get? 0 == some 1) = true :=
  C6_base_unit_column api0 USD 0 2 [] 0 (by decide) (by decide)

/-- Counterexample for C7: the update loop (lines 315-324) applies no weekend
test — `get_api_response(query_date)` is called unconditionally.  With the
cursor on day 5 (a Saturday) and wall-clock day 7, the poller issues a
network call for the Saturday and persists the provider's day-5 snapshot
`[1, 5]`, not the carry-forward of the prior trading day's snapshot `[1, 4]`
that the claim's weekend rule prescribes. -/
theorem C7_counterexample :
    isWeekendDay 5 = true ∧
    (updateStep api0 USD USD [USD, CAD] 7 [row0 4] 5).2 = [(USD, 5)] ∧
    ((updateStep api0 USD USD [USD, CAD] 7 [row0 4] 5).1.1.find?
      (fun r => r.date == 5)).map Row.vals = some [1, 5] ∧
    some [(1 : Rat), 5] ≠ some [(1 : Rat), 4] := by decide

/-- Claim C7 as amended: the poller's cursor starts one day past the cached
maximum date when the cache is non-empty (else at the caller-chosen start
date); a wake-up with wall-clock today not strictly past the cursor does
nothing; a wake-up with today strictly past the cursor fetches exactly one
snapshot, for the cursor date — **from the network regardless of weekday; no
weekend carry-forward rule is applied** — inserts it idempotently
(pre-existing rows survive verbatim, a duplicate date inserts nothing), and
advances the cursor by exactly one day, so at most one row is added per
wake-up. -/
theorem C7_update_poller (api : Api) (argsBase base_rate : String)
    (rate_keys : List String) (today : Nat) (store : List Row)
    (query_date start_date : Nat) :
    (store ≠ [] →
      (update_init argsBase false store.isEmpty (base_currency_in_table store)
        (maxDate store) start_date).query_date = maxDate store + 1) ∧
    (store = [] →
      (update_init argsBase false store.isEmpty (base_currency_in_table store)
        (maxDate store) start_date).query_date = start_date) ∧
    (¬ query_date < today →
      updateStep api argsBase base_rate rate_keys today store query_date =
        ((store, query_date), [])) ∧
    (query_date < today →
      (updateStep api argsBase base_rate rate_keys today store query_date).2 =
        [(argsBase, query_date)] ∧
      (updateStep api argsBase base_rate rate_keys today store query_date).1.2 =
        query_date + 1 ∧
      (updateStep api argsBase base_rate rate_keys today store query_date).1.1.take
        store.length = store ∧
      (updateStep api argsBase base_rate rate_keys today store query_date).1.1.length ≤
        store.length + 1 ∧
      ((∃ q ∈ store, q.date = query_date) →
        (updateStep api argsBase base_rate rate_keys today store query_date).1.1 = store) ∧
      ((∀ q ∈ store, q.date ≠ query_date) →
        (updateStep api argsBase base_rate rate_keys today store query_date).1.1 =
          store ++ [(get_insert_statement_and_values (api argsBase query_date)
            query_date TABLE_NAME rate_keys base_rate).2])) := by
  refine ⟨?_, ?_, ?_, ?_⟩
  · intro hne
    have hempty : store.isEmpty = false := by
      cases store with
      | nil => exact absurd rfl hne
      | cons r rs => rfl
    rw [hempty]
    rfl
  · intro hnil
    subst hnil
    rfl
  · intro hlt
    simp only [updateStep, if_neg hlt]
  · intro hlt
    have hstep : updateStep api argsBase base_rate rate_keys today store query_date =
        ((insert_into_table store
            (get_insert_statement_and_values (api argsBase query_date) query_date
              TABLE_NAME rate_keys base_rate).2, query_date + 1),
          [(argsBase, query_date)]) := by
      simp only [updateStep, if_pos hlt]
    rw [hstep]
    refine ⟨rfl, rfl, ?_, ?_, ?_, ?_⟩
    · by_cases hdup : ∃ q ∈ store, q.date = query_date
      · rw [insert_into_table_present hdup, List.take_length]
      · rw [insert_into_table_absent (by
          intro q hq hqd
          exact hdup ⟨q, hq, hqd⟩)]
        exact List.take_left store _
    · by_cases hdup : ∃ q ∈ store, q.date = query_date
      · rw [insert_into_table_present hdup]
        exact Nat.le_succ store.length
      · rw [insert_into_table_absent (by
          intro q hq hqd
          exact hdup ⟨q, hq, hqd⟩)]
        simp
    · intro hdup
      exact insert_into_table_present hdup
    · intro habs
      exact insert_into_table_absent (fun q hq => habs q hq)

/-- Witness for C7 as amended: cursor 5, wall-clock 7 — exactly one fetch, for
the cursor date, and the cursor advances to 6. -/
theorem C7_update_poller_witness :
    (updateStep api0 USD USD [USD, CAD] 7 [row0 4] 5).2 = [(USD, 5)] ∧
    (updateStep api0 USD USD [USD, CAD] 7 [row0 4] 5).1.2 = 5 + 1 := by
  have h := C7_update_poller api0 USD USD [USD, CAD] 7 [row0 4] 5 0
  exact ⟨(h.2.2.2 (by decide)).1, (h.2.2.2 (by decide)).2.1⟩

/-- Claim C3 (code_bug), evaluated at the failing input: cache base `USD`
(`store9`), requested base `EUR`, no populate, update mode, cursor past the
cached maximum (day 10), wall-clock day 12.  The mismatch warning fires and
announces that the table's currency (`USD`, which is also
`base_currency_to_use`) will be used — yet the wake-up issues its network
call with the requested base `EUR` (line 75 formats `args.base` into the
URL), and persists a row whose `base` column is `EUR` while the forced `1.0`
sits in the `USD` column.  The code thus contradicts its own warning: rows
are added under the wrong base rather than no fetch occurring. -/
theorem C3_wrong_base_fetch :
    (update_init EUR false false (base_currency_in_table store9) (maxDate store9) 0).warned
      = true ∧
    (update_init EUR false false (base_currency_in_table store9) (maxDate store9) 0).query_date
      = 10 ∧
    base_currency_to_use EUR false (base_currency_in_table store9) = USD ∧
    (updateStep api0 EUR (base_currency_to_use EUR false (base_currency_in_table store9))
      [USD, CAD] 12 store9 10).2 = [(EUR, 10)] ∧
    (updateStep api0 EUR (base_currency_to_use EUR false (base_currency_in_table store9))
      [USD, CAD] 12 store9 10).1.1 =
      store9 ++ [{ date := 10, base := EUR, vals := [1, 10] }] := by decide

/-- Counterexample for C9: the countries validation (lines 212-216) can only
run after `rate_keys` exists, and `rate_keys` comes from the bootstrap
`get_api_response(start_date)` at line 205 — so with the unknown filter
currency `XYZ` the run's first event is a network fetch, and the
`InvalidCurrencyError` is reported only second, not "before any I/O" as the
claim states. -/
theorem C9_counterexample :
    runTrace api0 USD [XYZ] 0 6 [] true =
      [Ev.fetch USD 0, Ev.currencyError [XYZ]] := by decide

/-- Claim C9 as amended: when a requested filter currency is absent from the
provider's known set, the run fails with the currency-validation error before
any reconciliation/populate fetching and before any insert — but after
exactly one network call, the bootstrap fetch of the requested start date,
because the provider's known currency set is itself obtained from that
bootstrap response. -/
theorem C9_currency_validation (api : Api) (argsBase : String)
    (countries : List String) (s e : Nat) (store : List Row) (populateFlag : Bool)
    (hbad : countries.filter (fun c => !((api argsBase s).ratesKeys.contains c)) ≠ []) :
    runTrace api argsBase countries s e store populateFlag =
      [Ev.fetch argsBase s,
       Ev.currencyError (countries.filter
         (fun c => !((api argsBase s).ratesKeys.contains c)))] := by
  have hne : (countries.filter
      (fun c => !((api argsBase s).ratesKeys.contains c))).isEmpty = false := by
    cases hc : countries.filter (fun c => !((api argsBase s).ratesKeys.contains c)) with
    | nil => exact absurd hc hbad
    | cons x xs => rfl
  simp only [runTrace, hne]
  rfl

/-- Witness for C9 as amended, at a start date of 3 with a populated store:
one bootstrap fetch, then the validation error, nothing else. -/
theorem C9_currency_validation_witness :
    runTrace api0 USD [XYZ] 3 6 store0 true =
      [Ev.fetch USD 3, Ev.currencyError [XYZ]] := by
  have h := C9_currency_validation api0 USD [XYZ] 3 6 store0 true (by decide)
  have hfil : ([XYZ] : List String).filter
      (fun c => !((api0 USD 3).ratesKeys.contains c)) = [XYZ] := by decide
  rw [hfil] at h
  exact h

/-- Counterexample for C1 (the spec's own §8 scenario, with days 0..4 =
Mon 2024-01-01..Fri 2024-01-05 already cached): an incremental populate of
days 0..6 pulls only the weekend days 5 and 6, so the loop's `response` is
still the bootstrap snapshot of the start date (day 0) when they are
processed.  The persisted Saturday row therefore carries the day-0 rates
`[1, 0]`, not the most recent prior trading day's (day 4) rates `[1, 4]`
that the claim requires — and this holds in every iteration order of
`dates_to_pull`, since both its elements are weekend days. -/
theorem C1_counterexample :
    (populate api0 USD 0 6 store0).dates_to_pull = [5, 6] ∧
    isWeekendDay 5 = true ∧
    ((populate api0 USD 0 6 store0).store.find? (fun r => r.date == 5)).map Row.vals
      = some [1, 0] ∧
    ((get_insert_statement_and_values (api0 USD 4) 5 TABLE_NAME [USD, CAD] USD).2).vals
      = [1, 4] ∧
    some [(1 : Rat), 0] ≠ some [(1 : Rat), 4] := by decide

/-- Claim C1 as amended: within one populate pass, the dates of
`dates_to_pull` are processed in its iteration order (the requested ascending
order for a rebuild pass; an unspecified Python-set order for an incremental
pass), appending one row per date after the retained rows.  A non-weekend
date is fetched from the network and its snapshot becomes "most recent"; a
weekend date issues no network call and persists the most recently fetched
snapshot of the pass — the snapshot of the last non-weekend date processed
before it, or the bootstrap start-date snapshot when no non-weekend date
precedes it (`carry_source`).  The persisted weekend rows therefore equal
the prior trading day's rates only when that trading day was fetched earlier
in the same pass, not in general. -/
theorem C1_carry_forward (api : Api) (argsBase : String) (s e : Nat)
    (store : List Row) (i : Nat)
    (hi : i < (populate api argsBase s e store).dates_to_pull.length) :
    (populate api argsBase s e store).fetched =
      (populate api argsBase s e store).dates_to_pull.filter (fun d => !isWeekendDay d) ∧
    ((populate api argsBase s e store).store.drop
        ((populate api argsBase s e store).store.length -
          (populate api argsBase s e store).dates_to_pull.length)).get? i =
      some (get_insert_statement_and_values
        (api argsBase (carry_source s (populate api argsBase s e store).dates_to_pull i))
        ((populate api argsBase s e store).dates_to_pull.getD i 0)
        TABLE_NAME (api argsBase s).ratesKeys argsBase).2 := by
  refine ⟨populate_fetched api argsBase s e store, ?_⟩
  rw [populate_store_decomp api argsBase s e store]
  have hlen : (builtRows api argsBase (api argsBase s).ratesKeys argsBase
      (populate api argsBase s e store).dates_to_pull (api argsBase s)).length =
      (populate api argsBase s e store).dates_to_pull.length :=
    builtRows_length api argsBase _ argsBase _ _
  rw [List.length_append, hlen]
  have hsub : (if base_currency_in_table store = some argsBase then store else []).length +
      (populate api argsBase s e store).dates_to_pull.length -
      (populate api argsBase s e store).dates_to_pull.length =
      (if base_currency_in_table store = some argsBase then store else []).length := by
    omega
  rw [hsub, List.drop_left]
  exact builtRows_get? api argsBase _ argsBase _ s i hi

/-- Witness for C1 as amended, at the counterexample's inputs with index 0:
the pass issues no fetch (both pulled dates are weekends), and the first
appended row is built from the bootstrap (day 0) snapshot, day 5 being a
weekend with no preceding non-weekend date in the pass. -/
theorem C1_carry_forward_witness :
    0 < (populate api0 USD 0 6 store0).dates_to_pull.length ∧
    ((populate api0 USD 0 6 store0).fetched =
      (populate api0 USD 0 6 store0).dates_to_pull.filter (fun d => !isWeekendDay d) ∧
    ((populate api0 USD 0 6 store0).store.drop
        ((populate api0 USD 0 6 store0).store.length -
          (populate api0 USD 0 6 store0).dates_to_pull.length)).get? 0 =
      some (get_insert_statement_and_values
        (api0 USD (carry_source 0 (populate api0 USD 0 6 store0).dates_to_pull 0))
        ((populate api0 USD 0 6 store0).dates_to_pull.getD 0 0)
        TABLE_NAME (api0 USD 0).ratesKeys USD).2) :=
  ⟨by decide, C1_carry_forward api0 USD 0 6 store0 0 (by decide)⟩
